import Mathlib

/-!
Shallow embedding of the caching / resilience layer of the recipe-explorer
CLI (src/cache.js, src/utils.js, src/api.js).

JavaScript values are modelled by `JVal` (JSON values plus `undefined`).
Disk I/O is modelled explicitly: the cache file is a `Disk` (absent,
unreadable/corrupt, or a parsed document), and each fallible I/O step is
driven by boolean oracles collected in `IoCtx`.  Asynchronous scheduling
(for the bounded-concurrency runner) is a small-step system parameterised
by a schedule: the list of which in-flight task settles next.
-/

/-- JavaScript values as they occur in this program: JSON values plus
`undefined`.  Objects are association lists of fields. -/
inductive JVal where
  | null : JVal
  | undefined : JVal
  | bool : Bool → JVal
  | num : Int → JVal
  | str : String → JVal
  | arr : List JVal → JVal
  | obj : List (String × JVal) → JVal

/-- JS truthiness of a value (`if (v)`).  Arrays and objects are always
truthy; `null`, `undefined`, `false`, `0` and the empty string are falsy. -/
def JVal.truthy : JVal → Bool
  | .null => false
  | .undefined => false
  | .bool b => b
  | .num n => n != 0
  | .str s => s != ""
  | .arr _ => true
  | .obj _ => true

/-- Property access `v.f` on a JS value: field lookup on objects,
`undefined` on other non-nullish values (access on `null`/`undefined`
throws and is handled at each call site). -/
def JVal.field : JVal → String → JVal
  | .obj fs, k =>
    match fs.lookup k with
    | some v => v
    | none => .undefined
  | _, _ => .undefined

/-- Structural equality of JS values.  For the primitive values this
program compares with `===` (the `idMeal` strings) it coincides with JS
strict equality. -/
def JVal.beq : JVal → JVal → Bool
  | .null, .null => true
  | .undefined, .undefined => true
  | .bool a, .bool b => a == b
  | .num a, .num b => a == b
  | .str a, .str b => a == b
  | .arr (a :: as), .arr (b :: bs) => JVal.beq a b && JVal.beq (.arr as) (.arr bs)
  | .arr [], .arr [] => true
  | .obj ((k, a) :: as), .obj ((l, b) :: bs) =>
    k == l && JVal.beq a b && JVal.beq (.obj as) (.obj bs)
  | .obj [], .obj [] => true
  | _, _ => false

instance : BEq JVal := ⟨JVal.beq⟩

/-- JS loose equality with `null` (`v == null`): true exactly for `null`
and `undefined`. -/
def looseEqNull : JVal → Bool
  | .null => true
  | .undefined => true
  | _ => false

/-- JS loose equality with the string literal `'undefined'`, for the
values that occur as `strCategory` in this program.  (ToPrimitive
coercion of arrays/objects is not modelled: categories from the JSON API
are strings or missing.) -/
def looseEqUndefStr : JVal → Bool
  | .str s => s == "undefined"
  | _ => false

/-- One entry of the cache document: `{timestamp, data}` as written by
`saveToCache` (src/cache.js). -/
structure CacheEntry where
  timestamp : Int
  data : JVal

/-- The parsed cache document: a JS object mapping keys to entries,
modelled as an association list with unique keys in insertion order. -/
abbrev CacheDoc := List (String × CacheEntry)

/-- `cacheData[key]` on the parsed document. -/
def lookupKey : CacheDoc → String → Option CacheEntry
  | [], _ => none
  | (k', e') :: rest, k => if k' = k then some e' else lookupKey rest k

/-- `cacheData[key] = e`: replace in place if the key exists (JS objects
keep the original property order), otherwise append. -/
def setKey : CacheDoc → String → CacheEntry → CacheDoc
  | [], k, e => [(k, e)]
  | (k', e') :: rest, k, e =>
    if k' = k then (k, e) :: rest else (k', e') :: setKey rest k e

/-- State of the cache file on disk: absent, present but
unreadable/corrupt (read or `JSON.parse` fails), or a readable document. -/
inductive Disk where
  | absent : Disk
  | corrupt : Disk
  | doc : CacheDoc → Disk


/-- `CACHE_DURATION` from src/cache.js: 24 hours in milliseconds. -/
def CACHE_DURATION : Int := 24 * 60 * 60 * 1000

/-- I/O failure oracles for one call: whether `fs.mkdir` rejects when a
directory must be created, whether the initial `fs.writeFile` of the
empty document succeeds, and whether the `fs.writeFile` of an updated
document succeeds. -/
structure IoCtx where
  mkdirThrows : Bool
  createOk : Bool
  writeOk : Bool


/-- `initializeCache` (src/cache.js:26): if the file is absent, create
the directory (a `mkdir` rejection propagates, because it is raised
inside a catch block) and write an empty document (a write rejection is
caught and logged).  Returns the new disk state, or `.error ()` when the
call itself rejects. -/
def initCache (io : IoCtx) : Disk → Except Unit Disk
  | .absent =>
    if io.mkdirThrows then .error ()
    else if io.createOk then .ok (.doc []) else .ok .absent
  | d => .ok d

/-- `getFromCache` (src/cache.js:73): read and parse the document; if the
key is present and `now - timestamp < CACHE_DURATION` return its data,
otherwise (stale, missing, or unreadable document) return `null`.  The
function performs no write, so the disk is returned unchanged. -/
def getFromCache (disk : Disk) (now : Int) (key : String) : JVal × Disk :=
  match disk with
  | .doc d =>
    match lookupKey d key with
    | some e =>
      if now - e.timestamp < CACHE_DURATION then (e.data, disk) else (.null, disk)
    | none => (.null, disk)
  | other => (.null, other)

/-- `saveToCache` (src/cache.js:121): await `initializeCache`, read and
parse the document, set `cacheData[key] = {timestamp: now, data}`, then
call `fs.writeFile` WITHOUT awaiting it and return `true`; any rejection
before that point yields `false`.  Because the write is not awaited, its
failure is never observed: the result is `true` even when `writeOk` is
false (in which case the disk keeps its old content). -/
def saveToCache (io : IoCtx) (disk : Disk) (now : Int) (key : String)
    (data : JVal) : Bool × Disk :=
  match initCache io disk with
  | .error () => (false, disk)
  | .ok disk1 =>
    match disk1 with
    | .doc d =>
      let d' := setKey d key ⟨now, data⟩
      (true, if io.writeOk then .doc d' else disk1)
    | other => (false, other)

/-- The body of the `for...in` loop of `clearExpiredCache`
(src/cache.js:175): walk the entries, dropping each entry with
`now - timestamp >= CACHE_DURATION` and counting the removals. -/
def sweep (now : Int) : CacheDoc → CacheDoc × Nat
  | [] => ([], 0)
  | (k, e) :: rest =>
    let r := sweep now rest
    if CACHE_DURATION ≤ now - e.timestamp then (r.1, r.2 + 1)
    else ((k, e) :: r.1, r.2)

/-- `clearExpiredCache` (src/cache.js:154): read and parse the document,
delete every expired entry, rewrite the file only when at least one entry
was removed (this write IS awaited, so its failure is caught and turns
the result into 0), and return the removal count; any failure returns 0.
The third component records whether `fs.writeFile` was called. -/
def clearExpiredCache (disk : Disk) (now : Int) (writeOk : Bool) :
    Nat × Disk × Bool :=
  match disk with
  | .doc d =>
    let s := sweep now d
    if 0 < s.2 then
      if writeOk then (s.2, .doc s.1, true) else (0, .doc d, true)
    else (s.2, .doc d, false)
  | other => (0, other, false)

/-- `getCachedOrFetch` (src/cache.js:209).  The fetch operation is
modelled by its outcome `fetchRes`.  Returns the produced value (`.undefined`
when the function falls through with no data), the resulting disk state,
and whether `fetchFn` was invoked.  On a truthy cache hit the fetch is
skipped; on fetch success the result is saved best-effort and returned;
on fetch failure (and `forceRefresh = false`) the file is re-read
directly, accepting a stale entry. -/
def getCachedOrFetch (io : IoCtx) (disk : Disk) (now : Int) (key : String)
    (fetchRes : Except String JVal) (forceRefresh : Bool) :
    JVal × Disk × Bool :=
  let hit := if forceRefresh then JVal.undefined else (getFromCache disk now key).1
  if !forceRefresh && hit.truthy then
    (hit, disk, false)
  else
    match fetchRes with
    | .ok fresh =>
      let sv := saveToCache io disk now key fresh
      (fresh, sv.2, true)
    | .error _ =>
      if !forceRefresh then
        match disk with
        | .doc d =>
          match lookupKey d key with
          | some e => (e.data, disk, true)
          | none => (.undefined, disk, true)
        | other => (.undefined, other, true)
      else (.undefined, disk, true)

/-- Outcome of one settled task of the bounded-concurrency runner
(src/utils.js:86): a success stores the value, a failure is caught and
stores `null` in the task's slot. -/
def taskOutcome : Except String JVal → JVal
  | .ok v => v
  | .error _ => .null

/-- State of the `runWithConcurrency` execution: the shared
`currentIndex` counter, the indices currently in flight, the `results`
array (`new Array(N)`, holes modelled as `undefined`), and the sequence
of task invocations so far. -/
structure RunState where
  nextIndex : Nat
  active : List Nat
  results : List JVal
  invoked : List Nat

/-- The initial batch of `runWithConcurrency`: the first
`min concurrency N` tasks are invoked (`runTask(currentIndex++)`), so
they are all in flight and `currentIndex` points past them. -/
def initState (tasks : List (Except String JVal)) (c : Nat) : RunState :=
  ⟨min c tasks.length, List.range (min c tasks.length),
    List.replicate tasks.length .undefined, List.range (min c tasks.length)⟩

/-- One scheduler step: the in-flight task `j` settles.  Its slot of
`results` is filled (with `null` on failure), and — the tail of
`runTask` — if `currentIndex < tasks.length` the next task is invoked
immediately on the same chain.  A `j` that is not in flight is a no-op
(such schedule entries model nothing happening). -/
def stepRun (tasks : List (Except String JVal)) (s : RunState) (j : Nat) :
    RunState :=
  if j ∈ s.active then
    if s.nextIndex < tasks.length then
      ⟨s.nextIndex + 1, s.active.erase j ++ [s.nextIndex],
        s.results.set j (taskOutcome (tasks.getD j (.error ""))),
        s.invoked ++ [s.nextIndex]⟩
    else
      ⟨s.nextIndex, s.active.erase j,
        s.results.set j (taskOutcome (tasks.getD j (.error ""))),
        s.invoked⟩
  else s

/-- `runWithConcurrency` (src/utils.js:86) as a small-step execution: the
schedule lists which in-flight task settles at each step (completion
order is up to the runtime).  The function returns (`Promise.all`
resolves) once no chain is left in flight, i.e. when the final `active`
list is empty. -/
def runWithConcurrency (tasks : List (Except String JVal)) (c : Nat)
    (sched : List Nat) : RunState :=
  sched.foldl (stepRun tasks) (initState tasks c)

/-- Execution invariant of the bounded-concurrency runner: the shared
counter never passes the task count, invocations are exactly the indices
below the counter in order, the in-flight indices are distinct, already
dispatched, and at most `min c N` many (exactly that many while tasks
remain to dispatch), the results array keeps its length, and every
dispatched index that is no longer in flight holds its task's outcome. -/
def RunInv (tasks : List (Except String JVal)) (c : Nat) (s : RunState) :
    Prop :=
  s.nextIndex ≤ tasks.length ∧
  s.invoked = List.range s.nextIndex ∧
  s.active.Nodup ∧
  (∀ j ∈ s.active, j < s.nextIndex) ∧
  s.results.length = tasks.length ∧
  (∀ i, i < s.nextIndex → i ∉ s.active →
    s.results[i]? = some (taskOutcome (tasks.getD i (.error "")))) ∧
  s.active.length ≤ min c tasks.length ∧
  (s.nextIndex < tasks.length → s.active.length = min c tasks.length)

/-- `errors.map(e => e.message).join(', ')` (src/utils.js:164):
JavaScript `Array.join` with separator `", "`. -/
def joinComma : List String → String
  | [] => ""
  | [m] => m
  | m :: m' :: ms => m ++ ", " ++ joinComma (m' :: ms)

/-- The loop of `tryStrategies` (src/utils.js:152): try each strategy in
order, return the first success, collect each failure's message; after
the loop throw the combined error.  The second component counts how many
strategies were invoked. -/
def tryStrategiesAux (acc : List String) (n : Nat) :
    List (Except String JVal) → Except String JVal × Nat
  | [] => (.error ("All strategies failed: " ++ joinComma acc), n)
  | s :: rest =>
    match s with
    | .ok v => (.ok v, n + 1)
    | .error e => tryStrategiesAux (acc ++ [e]) (n + 1) rest

/-- `tryStrategies` (src/utils.js:152), each strategy modelled by its
outcome.  Returns the overall outcome and the number of strategies
invoked. -/
def tryStrategies (strategies : List (Except String JVal)) :
    Except String JVal × Nat :=
  tryStrategiesAux [] 0 strategies

/-- The messages appear somewhere in `s`, in the given order: `s` splits
as `a ++ m1 ++ ... ++ mk ++ b` with arbitrary text in between. -/
def containsInOrder : String → List String → Prop
  | _, [] => True
  | s, m :: ms => ∃ a b, s = a ++ m ++ b ∧ containsInOrder b ms

/-- Outcome of one `fetch` of `${BASE_URL}/lookup.php?i=${id}` inside
`getMealById` (src/api.js:61): an ok response carrying `json.meals`
(`none` models JSON `null`), a non-ok response, or a rejection. -/
inductive FetchOutcome where
  | ok : Option (List JVal) → FetchOutcome
  | badStatus : Nat → FetchOutcome
  | throws : FetchOutcome

/-- `getMealById` (src/api.js:61), fuelled.  `fetchOracle` gives the
outcome of the n-th fetch attempt.  On a non-ok response with
`attempts >= 1` it waits, decrements and recurses; with `attempts < 1`
the thrown status error is caught by the function's own catch block,
whose else-branch recurses WITHOUT decrementing (src/api.js:108).  A
rejection takes the same catch block.  The value `none` means the
computation did not finish within `fuel` recursive calls. -/
def getMealByIdFuel (fetchOracle : Nat → FetchOutcome) (callNo : Nat)
    (attempts : Int) : Nat → Option JVal
  | 0 => none
  | fuel + 1 =>
    match fetchOracle callNo with
    | .ok meals =>
      match meals with
      | some ms => some (ms.getD 0 .undefined)
      | none => some .null
    | .badStatus _ =>
      if 1 ≤ attempts then
        getMealByIdFuel fetchOracle (callNo + 1) (attempts - 1) fuel
      else
        getMealByIdFuel fetchOracle (callNo + 1) attempts fuel
    | .throws =>
      if 1 ≤ attempts then
        getMealByIdFuel fetchOracle (callNo + 1) (attempts - 1) fuel
      else
        getMealByIdFuel fetchOracle (callNo + 1) attempts fuel

/-- `Array.slice(0, e)` of JavaScript: a negative end counts from the end
of the array. -/
def jsSliceTo (l : List JVal) (e : Int) : List JVal :=
  if e < 0 then l.take ((l.length + e).toNat) else l.take e.toNat

/-- `getRelatedRecipes` (src/api.js:260).  The guard is the source's
(inverted) validity check: a non-nullish recipe whose `strCategory` is
non-nullish and not loosely equal to `'undefined'` returns `[]` at once,
before any fetch.  Otherwise a nullish recipe throws on property access
(caught, `[]`), and the remaining cases fetch by category
(`fetchRes`: `.ok meals` models a parsed ok response, `.error` a non-ok
response or rejection), drop the original recipe by `idMeal` (strict
`!==`, modelled structurally on the string ids) and slice to `limit`.
The boolean records whether the fetch was issued. -/
def getRelatedRecipes (recipe : JVal) (lim : Int)
    (fetchRes : Except String (Option (List JVal))) : List JVal × Bool :=
  if !looseEqNull recipe && !looseEqNull (recipe.field "strCategory")
      && !looseEqUndefStr (recipe.field "strCategory") then
    ([], false)
  else if looseEqNull recipe then
    ([], false)
  else
    match fetchRes with
    | .error _ => ([], true)
    | .ok meals =>
      let ms := meals.getD []
      let filtered := ms.filter
        (fun m => !(m.field "idMeal" == recipe.field "idMeal" : Bool))
      (jsSliceTo filtered lim, true)

/-! ## Helper lemmas -/

/-- A key just written by `setKey` is found by `lookupKey` with the new
entry. -/
theorem lookupKey_setKey_self (d : CacheDoc) (k : String) (e : CacheEntry) :
    lookupKey (setKey d k e) k = some e := by
  induction d with
  | nil => simp [setKey, lookupKey]
  | cons p rest ih =>
    obtain ⟨k', e'⟩ := p
    by_cases h : k' = k
    · subst h
      simp [setKey, lookupKey]
    · simp [setKey, lookupKey, h, ih]

/-! ## Claim theorems -/

/-- C4: `getFromCache` returns the stored payload exactly on a fresh
entry (`now - timestamp < CACHE_DURATION`); for a stale entry, a missing
key, or an unreadable/corrupt/absent document it returns `null`, and it
never modifies the document (a stale entry stays in place). -/
theorem c4_getFromCache_ttl (d : CacheDoc) (key : String) (now : Int) :
    (∀ e, lookupKey d key = some e → now - e.timestamp < CACHE_DURATION →
      getFromCache (.doc d) now key = (e.data, .doc d)) ∧
    (∀ e, lookupKey d key = some e → CACHE_DURATION ≤ now - e.timestamp →
      getFromCache (.doc d) now key = (.null, .doc d)) ∧
    (lookupKey d key = none → getFromCache (.doc d) now key = (.null, .doc d)) ∧
    getFromCache .corrupt now key = (.null, .corrupt) ∧
    getFromCache .absent now key = (.null, .absent) := by
  refine ⟨?_, ?_, ?_, rfl, rfl⟩
  · intro e he hf
    simp [getFromCache, he, hf]
  · intro e he hs
    simp [getFromCache, he, Int.not_lt.mpr hs]
  · intro he
    simp [getFromCache, he]

/-- C4 witness: on a document holding a single fresh entry, the payload
is returned. -/
theorem c4_witness :
    lookupKey [("k", ⟨0, JVal.str "v"⟩)] "k" = some ⟨0, JVal.str "v"⟩ ∧
    (0 : Int) - 0 < CACHE_DURATION ∧
    getFromCache (.doc [("k", ⟨0, JVal.str "v"⟩)]) 0 "k"
      = (JVal.str "v", .doc [("k", ⟨0, JVal.str "v"⟩)]) :=
  ⟨rfl, by decide,
    (c4_getFromCache_ttl [("k", ⟨0, JVal.str "v"⟩)] "k" 0).1
      ⟨0, JVal.str "v"⟩ rfl (by decide)⟩

/-- C3 (code divergence): because `saveToCache` calls `fs.writeFile`
without awaiting it, a failing write (`writeOk = false`) is never
observed: the call still returns `true` while the document on disk is
left unchanged, contradicting the contract that any write failure
returns `false`. -/
theorem c3_saveToCache_unawaited_write :
    saveToCache ⟨false, true, false⟩ (.doc []) 0 "k" (JVal.str "v")
      = (true, .doc []) := rfl

/-- C9: `saveToCache` followed by `getFromCache` within the TTL (with the
document readable and the write landing) returns the saved payload. -/
theorem c9_roundTrip (io : IoCtx) (d : CacheDoc) (key : String) (v : JVal)
    (now now' : Int) (hw : io.writeOk = true)
    (hfresh : now' - now < CACHE_DURATION) :
    (saveToCache io (.doc d) now key v).1 = true ∧
    (getFromCache (saveToCache io (.doc d) now key v).2 now' key).1 = v := by
  have hsv : saveToCache io (.doc d) now key v
      = (true, .doc (setKey d key ⟨now, v⟩)) := by
    simp [saveToCache, initCache, hw]
  refine ⟨by simp [hsv], ?_⟩
  rw [hsv]
  simp [getFromCache, lookupKey_setKey_self, hfresh]

/-- C9 witness: a concrete immediate round-trip. -/
theorem c9_witness :
    (⟨false, true, true⟩ : IoCtx).writeOk = true ∧
    (1 : Int) - 0 < CACHE_DURATION ∧
    (getFromCache
      (saveToCache ⟨false, true, true⟩ (.doc []) 0 "k" (JVal.str "v")).2
      1 "k").1 = JVal.str "v" :=
  ⟨rfl, by decide,
    (c9_roundTrip ⟨false, true, true⟩ [] "k" (JVal.str "v") 0 1 rfl
      (by decide)).2⟩

/-- C10: the inverted validity check of `getRelatedRecipes` makes every
non-nullish recipe with a non-nullish category (not loosely equal to
the string `'undefined'`) return the empty list at once, with no fetch
issued, whatever the limit and whatever related recipes exist. -/
theorem c10_relatedRecipes_guard (recipe : JVal) (lim : Int)
    (fetchRes : Except String (Option (List JVal)))
    (h1 : looseEqNull recipe = false)
    (h2 : looseEqNull (recipe.field "strCategory") = false)
    (h3 : looseEqUndefStr (recipe.field "strCategory") = false) :
    getRelatedRecipes recipe lim fetchRes = ([], false) := by
  simp [getRelatedRecipes, h1, h2, h3]

/-- C10 witness: a recipe with category Beef returns no related recipes
and performs no fetch, although the fetch would have produced one. -/
theorem c10_witness :
    looseEqNull (JVal.obj [("strCategory", JVal.str "Beef")]) = false ∧
    getRelatedRecipes (JVal.obj [("strCategory", JVal.str "Beef")]) 3
      (.ok (some [JVal.obj [("idMeal", JVal.str "77")]])) = ([], false) :=
  ⟨rfl,
    c10_relatedRecipes_guard (JVal.obj [("strCategory", JVal.str "Beef")]) 3
      (.ok (some [JVal.obj [("idMeal", JVal.str "77")]])) rfl rfl rfl⟩

/-- C1 (amended): on a fresh cache hit whose payload is truthy,
`getCachedOrFetch` with `forceRefresh = false` returns the entry's
payload, leaves the document alone and never invokes the operation. -/
theorem c1_fresh_truthy_hit (io : IoCtx) (d : CacheDoc) (key : String)
    (now : Int) (e : CacheEntry) (fetchRes : Except String JVal)
    (hl : lookupKey d key = some e)
    (hfresh : now - e.timestamp < CACHE_DURATION)
    (ht : e.data.truthy = true) :
    getCachedOrFetch io (.doc d) now key fetchRes false
      = (e.data, .doc d, false) := by
  simp [getCachedOrFetch, getFromCache, hl, hfresh, ht]

/-- C1 witness: a fresh truthy entry is served from the cache without
invoking the operation. -/
theorem c1_witness :
    lookupKey [("k", ⟨0, JVal.str "v"⟩)] "k" = some ⟨0, JVal.str "v"⟩ ∧
    (0 : Int) - 0 < CACHE_DURATION ∧
    (JVal.str "v").truthy = true ∧
    getCachedOrFetch ⟨false, true, true⟩ (.doc [("k", ⟨0, JVal.str "v"⟩)])
      0 "k" (.ok (JVal.str "other")) false
      = (JVal.str "v", .doc [("k", ⟨0, JVal.str "v"⟩)], false) :=
  ⟨rfl, by decide, rfl,
    c1_fresh_truthy_hit ⟨false, true, true⟩ [("k", ⟨0, JVal.str "v"⟩)] "k"
      0 ⟨0, JVal.str "v"⟩ (.ok (JVal.str "other")) rfl (by decide) rfl⟩

/-- C1 counterexample: the store holds a FRESH entry for the key, with
the (falsy) payload `null` — as `getMealById` caches for a missing id —
yet `getCachedOrFetch` invokes the operation (third component `true`)
and returns the fetched value instead of the entry's payload, because
the hit test is JS truthiness, not presence. -/
theorem c1_counterexample :
    lookupKey [("k", ⟨0, JVal.null⟩)] "k" = some ⟨0, JVal.null⟩ ∧
    (0 : Int) - 0 < CACHE_DURATION ∧
    getCachedOrFetch ⟨false, true, true⟩ (.doc [("k", ⟨0, JVal.null⟩)])
      0 "k" (.ok (JVal.str "fetched")) false
      = (JVal.str "fetched", .doc [("k", ⟨0, JVal.str "fetched"⟩)], true) :=
  ⟨rfl, by decide, rfl⟩

/-- C2: when the operation fails and `forceRefresh` is false,
`getCachedOrFetch` returns the stored entry's payload whenever an entry
for the key exists in the readable document (fresh or stale alike); with
no entry, an unreadable document, or `forceRefresh = true` it returns
`undefined` (an empty indication) and never raises. -/
theorem c2_stale_fallback (io : IoCtx) (key : String) (now : Int)
    (msg : String) :
    (∀ (d : CacheDoc) (e : CacheEntry), lookupKey d key = some e →
      (getCachedOrFetch io (.doc d) now key (.error msg) false).1 = e.data) ∧
    (∀ d : CacheDoc, lookupKey d key = none →
      getCachedOrFetch io (.doc d) now key (.error msg) false
        = (.undefined, .doc d, true)) ∧
    (∀ disk : Disk, getCachedOrFetch io disk now key (.error msg) true
      = (.undefined, disk, true)) ∧
    getCachedOrFetch io .corrupt now key (.error msg) false
      = (.undefined, .corrupt, true) ∧
    getCachedOrFetch io .absent now key (.error msg) false
      = (.undefined, .absent, true) := by
  refine ⟨?_, ?_, ?_, rfl, rfl⟩
  · intro d e hl
    by_cases hfresh : now - e.timestamp < CACHE_DURATION
    · by_cases ht : e.data.truthy
      · simp [getCachedOrFetch, getFromCache, hl, hfresh, ht]
      · simp [getCachedOrFetch, getFromCache, hl, hfresh, ht]
    · simp [getCachedOrFetch, getFromCache, JVal.truthy, hl, hfresh]
  · intro d hl
    simp [getCachedOrFetch, getFromCache, JVal.truthy, hl]
  · intro disk
    simp [getCachedOrFetch]

/-- C2 witness: a stale entry is served as fallback when the operation
fails. -/
theorem c2_witness :
    lookupKey [("k", ⟨0, JVal.str "old"⟩)] "k" = some ⟨0, JVal.str "old"⟩ ∧
    (getCachedOrFetch ⟨false, true, true⟩
      (.doc [("k", ⟨0, JVal.str "old"⟩)]) 999999999999 "k"
      (.error "network down") false).1 = JVal.str "old" :=
  ⟨rfl,
    (c2_stale_fallback ⟨false, true, true⟩ "k" 999999999999
      "network down").1 [("k", ⟨0, JVal.str "old"⟩)] ⟨0, JVal.str "old"⟩ rfl⟩

/-- The eviction loop computes the fresh entries (in order) and counts
the expired ones. -/
theorem sweep_eq (now : Int) (d : CacheDoc) :
    sweep now d
      = (d.filter (fun p => decide (now - p.2.timestamp < CACHE_DURATION)),
         (d.filter
           (fun p => decide (CACHE_DURATION ≤ now - p.2.timestamp))).length) := by
  induction d with
  | nil => simp [sweep]
  | cons p rest ih =>
    obtain ⟨k, e⟩ := p
    by_cases h : CACHE_DURATION ≤ now - e.timestamp
    · simp [sweep, ih, h, Int.not_lt.mpr h]
    · simp [sweep, ih, h, Int.not_le.mp h]

/-- The eviction loop removes nothing from a document of fresh entries. -/
theorem sweep_fresh (now : Int) (d : CacheDoc)
    (h : ∀ p ∈ d, now - p.2.timestamp < CACHE_DURATION) :
    sweep now d = (d, 0) := by
  induction d with
  | nil => simp [sweep]
  | cons p rest ih =>
    obtain ⟨k, e⟩ := p
    have hf : now - e.timestamp < CACHE_DURATION := h (k, e) (by simp)
    have hrest : ∀ p ∈ rest, now - p.2.timestamp < CACHE_DURATION := by
      intro q hq
      exact h q (List.mem_cons_of_mem _ hq)
    simp [sweep, ih hrest, Int.not_le.mpr hf]

/-- C5: `clearExpiredCache` on a readable document (with the rewrite
succeeding) returns the exact number of entries whose age is at least the
TTL, keeps exactly the fresher entries in order, calls `fs.writeFile`
iff at least one entry was removed, and a second consecutive call (same
clock) returns 0; a failed read or a failed rewrite returns 0. -/
theorem c5_clearExpiredCache (d : CacheDoc) (now : Int) :
    (clearExpiredCache (.doc d) now true).1
      = (d.filter
          (fun p => decide (CACHE_DURATION ≤ now - p.2.timestamp))).length ∧
    (clearExpiredCache (.doc d) now true).2.1
      = .doc (d.filter (fun p => decide (now - p.2.timestamp < CACHE_DURATION))) ∧
    ((clearExpiredCache (.doc d) now true).2.2 = true ↔
      0 < (d.filter
        (fun p => decide (CACHE_DURATION ≤ now - p.2.timestamp))).length) ∧
    (clearExpiredCache (clearExpiredCache (.doc d) now true).2.1 now true).1
      = 0 ∧
    (clearExpiredCache (.doc d) now false).1 = 0 ∧
    clearExpiredCache .corrupt now true = (0, .corrupt, false) ∧
    clearExpiredCache .absent now true = (0, .absent, false) := by
  have hsecond : ∀ d' : CacheDoc,
      (∀ p ∈ d', now - p.2.timestamp < CACHE_DURATION) →
      (clearExpiredCache (.doc d') now true).1 = 0 := by
    intro d' h
    simp [clearExpiredCache, sweep_fresh now d' h]
  have hkeptFresh : ∀ p ∈ d.filter
      (fun p => decide (now - p.2.timestamp < CACHE_DURATION)),
      now - p.2.timestamp < CACHE_DURATION := by
    intro p hp
    exact of_decide_eq_true (List.mem_filter.mp hp).2
  by_cases hc : 0 < (d.filter
      (fun p => decide (CACHE_DURATION ≤ now - p.2.timestamp))).length
  · refine ⟨?_, ?_, ?_, ?_, ?_, rfl, rfl⟩
    · simp [clearExpiredCache, sweep_eq, hc]
    · simp [clearExpiredCache, sweep_eq, hc]
    · simp [clearExpiredCache, sweep_eq, hc]
    · have hdisk : (clearExpiredCache (.doc d) now true).2.1
          = .doc (d.filter
            (fun p => decide (now - p.2.timestamp < CACHE_DURATION))) := by
        simp [clearExpiredCache, sweep_eq, hc]
      rw [hdisk]
      exact hsecond _ hkeptFresh
    · simp [clearExpiredCache, sweep_eq, hc]
  · have hnil : d.filter
        (fun p => decide (CACHE_DURATION ≤ now - p.2.timestamp)) = [] := by
      cases hx : d.filter
          (fun p => decide (CACHE_DURATION ≤ now - p.2.timestamp)) with
      | nil => rfl
      | cons q qs => exact absurd (by simp [hx]) hc
    have hallFresh : ∀ p ∈ d, now - p.2.timestamp < CACHE_DURATION := by
      intro p hp
      have hnot : ¬(CACHE_DURATION ≤ now - p.2.timestamp) := by
        intro hle
        have : p ∈ d.filter
            (fun p => decide (CACHE_DURATION ≤ now - p.2.timestamp)) :=
          List.mem_filter.mpr ⟨hp, decide_eq_true hle⟩
        simp [hnil] at this
      exact Int.not_le.mp hnot
    have hself : d.filter
        (fun p => decide (now - p.2.timestamp < CACHE_DURATION)) = d :=
      List.filter_eq_self.mpr (fun p hp => decide_eq_true (hallFresh p hp))
    refine ⟨?_, ?_, ?_, ?_, ?_, rfl, rfl⟩
    · simp [clearExpiredCache, sweep_eq, hnil]
    · simp [clearExpiredCache, sweep_eq, hnil, hself]
    · simp [clearExpiredCache, sweep_eq, hnil]
    · have hdisk : (clearExpiredCache (.doc d) now true).2.1 = .doc d := by
        simp [clearExpiredCache, sweep_eq, hnil]
      rw [hdisk]
      exact hsecond d hallFresh
    · simp [clearExpiredCache, sweep_eq, hnil]

/-- Running the strategy loop past a block of failing strategies
accumulates their messages and invocation count. -/
theorem tryStrategiesAux_errors (msgs : List String) :
    ∀ (acc : List String) (n : Nat) (rest : List (Except String JVal)),
      tryStrategiesAux acc n (msgs.map .error ++ rest)
        = tryStrategiesAux (acc ++ msgs) (n + msgs.length) rest := by
  induction msgs with
  | nil =>
    intro acc n rest
    simp
  | cons m ms ih =>
    intro acc n rest
    simp only [List.map_cons, List.cons_append, tryStrategiesAux,
      List.append_eq]
    rw [ih]
    have h1 : (acc ++ [m]) ++ ms = acc ++ m :: ms := by simp
    have h2 : n + 1 + ms.length = n + (ms.length + 1) := by omega
    rw [h1, h2]
    simp

/-- A string that ends with the comma-join of the messages contains all
of them in order. -/
theorem containsInOrder_joinComma (msgs : List String) :
    ∀ p : String, containsInOrder (p ++ joinComma msgs) msgs := by
  induction msgs with
  | nil =>
    intro p
    trivial
  | cons m ms ih =>
    intro p
    cases ms with
    | nil =>
      refine ⟨p, "", ?_, trivial⟩
      rw [String.append_assoc, String.append_empty]
      rfl
    | cons m' ms' =>
      refine ⟨p, ", " ++ joinComma (m' :: ms'), ?_, ih ", "⟩
      show p ++ (m ++ ", " ++ joinComma (m' :: ms'))
        = p ++ m ++ (", " ++ joinComma (m' :: ms'))
      rw [String.append_assoc, String.append_assoc]

/-- C7: `tryStrategies` returns the first success, invoking exactly the
strategies up to and including it; when every strategy fails, it fails
with the aggregate error whose message carries every individual failure
message, comma-joined in the original order. -/
theorem c7_tryStrategies (msgs : List String) (v : JVal)
    (post : List (Except String JVal)) :
    tryStrategies (msgs.map .error ++ .ok v :: post)
      = (.ok v, msgs.length + 1) ∧
    tryStrategies (msgs.map .error)
      = (.error ("All strategies failed: " ++ joinComma msgs),
         msgs.length) ∧
    containsInOrder ("All strategies failed: " ++ joinComma msgs) msgs := by
  refine ⟨?_, ?_, containsInOrder_joinComma msgs _⟩
  · show tryStrategiesAux [] 0 (msgs.map .error ++ .ok v :: post)
      = (.ok v, msgs.length + 1)
    rw [tryStrategiesAux_errors]
    simp [tryStrategiesAux]
  · have h := tryStrategiesAux_errors msgs [] 0 []
    rw [List.append_nil] at h
    simpa [tryStrategies, tryStrategiesAux] using h

/-- C8 (code divergence): when every fetch attempt fails, `getMealById`
never returns, for ANY initial retry budget: once attempts are exhausted
the catch block re-invokes the function with the same arguments
(src/api.js:108), so no recursion depth (fuel) suffices to produce a
result — the code retries indefinitely instead of giving up and
returning absent as specified. -/
theorem c8_getMealById_unbounded (attempts : Int) (callNo fuel : Nat) :
    getMealByIdFuel (fun _ => .throws) callNo attempts fuel = none := by
  induction fuel generalizing callNo attempts with
  | zero => rfl
  | succ n ih =>
    show (if 1 ≤ attempts then
        getMealByIdFuel (fun _ => .throws) (callNo + 1) (attempts - 1) n
      else
        getMealByIdFuel (fun _ => .throws) (callNo + 1) attempts n) = none
    split
    · exact ih (attempts - 1) (callNo + 1)
    · exact ih attempts (callNo + 1)

/-- The initial batch of the runner satisfies the execution invariant. -/
theorem initState_inv (tasks : List (Except String JVal)) (c : Nat) :
    RunInv tasks c (initState tasks c) := by
  refine ⟨Nat.min_le_right c tasks.length, rfl, List.nodup_range _, ?_, ?_,
    ?_, ?_, ?_⟩
  · intro j hj
    exact List.mem_range.mp hj
  · exact List.length_replicate _ _
  · intro i hi hmem
    exact absurd (List.mem_range.mpr hi) hmem
  · simp [initState]
  · intro _
    simp [initState]

/-- One settle-step of the runner preserves the execution invariant. -/
theorem stepRun_inv (tasks : List (Except String JVal)) (c : Nat)
    (s : RunState) (j : Nat) (h : RunInv tasks c s) :
    RunInv tasks c (stepRun tasks s j) := by
  obtain ⟨h1, h2, h3, h4, h5, h6, h7, h8⟩ := h
  by_cases hj : j ∈ s.active
  · have hjlt : j < s.nextIndex := h4 j hj
    have hjN : j < tasks.length := lt_of_lt_of_le hjlt h1
    have hjres : j < s.results.length := by
      rw [h5]
      exact hjN
    have hpos : 0 < s.active.length := List.length_pos_of_mem hj
    have herlen : (s.active.erase j).length = s.active.length - 1 :=
      List.length_erase_of_mem hj
    by_cases hn : s.nextIndex < tasks.length
    · rw [stepRun, if_pos hj, if_pos hn]
      refine ⟨?_, ?_, ?_, ?_, ?_, ?_, ?_, ?_⟩ <;> dsimp only
      · omega
      · rw [h2, List.range_succ]
      · refine List.Nodup.append (h3.erase j) (List.nodup_singleton _) ?_
        intro x hx hx'
        have hxa : x ∈ s.active := List.mem_of_mem_erase hx
        have hxe : x = s.nextIndex := List.mem_singleton.mp hx'
        have := h4 x hxa
        omega
      · intro x hx
        rcases List.mem_append.mp hx with hx1 | hx2
        · have := h4 x (List.mem_of_mem_erase hx1)
          omega
        · have hxe : x = s.nextIndex := List.mem_singleton.mp hx2
          omega
      · rw [List.length_set]
        exact h5
      · intro i hi hmem
        have hiI : i ≠ s.nextIndex := by
          intro he
          exact hmem (List.mem_append.mpr (Or.inr (by simp [he])))
        have hi' : i < s.nextIndex := by omega
        have hmem' : i ∉ s.active.erase j := fun hx =>
          hmem (List.mem_append.mpr (Or.inl hx))
        by_cases hij : i = j
        · subst hij
          rw [List.getElem?_set_self hjres]
        · have hia : i ∉ s.active := fun hx =>
            hmem' ((List.mem_erase_of_ne hij).mpr hx)
          rw [List.getElem?_set_ne (fun he => hij he.symm)]
          exact h6 i hi' hia
      · have hlen : (s.active.erase j ++ [s.nextIndex]).length
            = s.active.length := by
          rw [List.length_append, herlen]
          simp
          omega
        rw [hlen]
        exact h7
      · intro _
        have hlen : (s.active.erase j ++ [s.nextIndex]).length
            = s.active.length := by
          rw [List.length_append, herlen]
          simp
          omega
        rw [hlen]
        exact h8 hn
    · rw [stepRun, if_pos hj, if_neg hn]
      refine ⟨h1, h2, h3.erase j, ?_, ?_, ?_, ?_, ?_⟩ <;> dsimp only
      · intro x hx
        exact h4 x (List.mem_of_mem_erase hx)
      · rw [List.length_set]
        exact h5
      · intro i hi hmem
        by_cases hij : i = j
        · subst hij
          rw [List.getElem?_set_self hjres]
        · have hia : i ∉ s.active := fun hx =>
            hmem ((List.mem_erase_of_ne hij).mpr hx)
          rw [List.getElem?_set_ne (fun he => hij he.symm)]
          exact h6 i hi hia
      · have : (s.active.erase j).length ≤ s.active.length := by omega
        exact le_trans this h7
      · intro hx
        exact absurd hx hn
  · rw [stepRun, if_neg hj]
    exact ⟨h1, h2, h3, h4, h5, h6, h7, h8⟩

/-- Any schedule preserves the execution invariant. -/
theorem runInv_foldl (tasks : List (Except String JVal)) (c : Nat)
    (sched : List Nat) :
    ∀ s, RunInv tasks c s → RunInv tasks c (sched.foldl (stepRun tasks) s) := by
  induction sched with
  | nil =>
    intro s h
    exact h
  | cons j rest ih =>
    intro s h
    exact ih _ (stepRun_inv tasks c s j h)

/-- Every run of the bounded-concurrency runner satisfies the execution
invariant. -/
theorem runWithConcurrency_inv (tasks : List (Except String JVal)) (c : Nat)
    (sched : List Nat) : RunInv tasks c (runWithConcurrency tasks c sched) :=
  runInv_foldl tasks c sched _ (initState_inv tasks c)

/-- C6 (amended: concurrency limit at least 1): once every chain has
settled (`active = []`), the runner's result array has one slot per
task in input order, each holding its task's outcome (`null` for a
failure, which aborts nothing), every task was invoked exactly once (in
index order), and along any schedule at most `c` tasks are ever in
flight. -/
theorem c6_runWithConcurrency (tasks : List (Except String JVal)) (c : Nat)
    (sched : List Nat) (hc : 1 ≤ c)
    (hdone : (runWithConcurrency tasks c sched).active = []) :
    (runWithConcurrency tasks c sched).results.length = tasks.length ∧
    (runWithConcurrency tasks c sched).invoked = List.range tasks.length ∧
    (∀ i, i < tasks.length →
      (runWithConcurrency tasks c sched).results[i]?
        = some (taskOutcome (tasks.getD i (.error "")))) ∧
    (∀ pre : List Nat, (runWithConcurrency tasks c pre).active.length ≤ c) := by
  obtain ⟨h1, h2, h3, h4, h5, h6, h7, h8⟩ := runWithConcurrency_inv tasks c sched
  have hN : (runWithConcurrency tasks c sched).nextIndex = tasks.length := by
    by_contra hne
    have hlt : (runWithConcurrency tasks c sched).nextIndex < tasks.length :=
      lt_of_le_of_ne h1 hne
    have hmin := h8 hlt
    rw [hdone] at hmin
    have h0 : (0 : Nat) = min c tasks.length := by simpa using hmin
    have h1' : 1 ≤ min c tasks.length := le_min hc (by omega)
    rw [← h0] at h1'
    exact absurd h1' (by omega)
  refine ⟨h5, ?_, ?_, ?_⟩
  · rw [h2, hN]
  · intro i hi
    exact h6 i (by omega) (by rw [hdone]; exact List.not_mem_nil i)
  · intro pre
    obtain ⟨_, _, _, _, _, _, hp, _⟩ := runWithConcurrency_inv tasks c pre
    exact le_trans hp (Nat.min_le_left c tasks.length)

/-- C6 witness: five tasks at concurrency 2, the third failing, run to
completion under the schedule 0,1,2,3,4: every task invoked exactly
once, slot 2 holds null, slot 0 its success. -/
theorem c6_witness :
    1 ≤ 2 ∧
    (runWithConcurrency [Except.ok (JVal.str "r0"), Except.ok (JVal.str "r1"),
      Except.error "boom", Except.ok (JVal.str "r3"),
      Except.ok (JVal.str "r4")] 2 [0, 1, 2, 3, 4]).active = [] ∧
    (runWithConcurrency [Except.ok (JVal.str "r0"), Except.ok (JVal.str "r1"),
      Except.error "boom", Except.ok (JVal.str "r3"),
      Except.ok (JVal.str "r4")] 2 [0, 1, 2, 3, 4]).invoked = List.range 5 ∧
    (runWithConcurrency [Except.ok (JVal.str "r0"), Except.ok (JVal.str "r1"),
      Except.error "boom", Except.ok (JVal.str "r3"),
      Except.ok (JVal.str "r4")] 2 [0, 1, 2, 3, 4]).results[2]?
      = some JVal.null ∧
    (runWithConcurrency [Except.ok (JVal.str "r0"), Except.ok (JVal.str "r1"),
      Except.error "boom", Except.ok (JVal.str "r3"),
      Except.ok (JVal.str "r4")] 2 [0, 1, 2, 3, 4]).results[0]?
      = some (JVal.str "r0") :=
  have h := c6_runWithConcurrency
    [Except.ok (JVal.str "r0"), Except.ok (JVal.str "r1"),
      Except.error "boom", Except.ok (JVal.str "r3"),
      Except.ok (JVal.str "r4")] 2 [0, 1, 2, 3, 4] (by omega) rfl
  ⟨by omega, rfl, h.2.1, h.2.2.1 2 (by decide), h.2.2.1 0 (by decide)⟩

/-- C6 counterexample: with concurrency limit 0, `Promise.all([])`
resolves at once — the execution is complete (`active = []`) although the
single task was never invoked and its result slot still holds the array
hole, refuting the claim as stated for every concurrency limit. -/
theorem c6_counterexample :
    (runWithConcurrency [Except.ok (JVal.str "r0")] 0 []).active = [] ∧
    (runWithConcurrency [Except.ok (JVal.str "r0")] 0 []).invoked = [] ∧
    (runWithConcurrency [Except.ok (JVal.str "r0")] 0 []).results
      = [JVal.undefined] :=
  ⟨rfl, rfl, rfl⟩
